import Mathlib

/-!
Verification of `bonfire_utils.py`: a shallow embedding in Lean 4 of the
retrieval / normalization / filter pipeline (pagination, datetime parsing and
timezone conversion, window filtering, and JSON-to-row flattening), together
with theorems settling the specification's claims about it.

Conventions of the embedding:
* Python strings are modelled as `List Char` (abbreviated `Str`).
* Python `None` is `Option.none`; a fallible Python expression is an
  `Except PyErr _` value, where `PyErr` names the Python exception class.
* Aware/naive `datetime` values are modelled by `DT`: a wall-clock time in
  seconds since the epoch plus an optional UTC offset (in seconds);
  `offset = none` models a naive datetime (`tzinfo is None`).
* `datetime.fromisoformat` is modelled over the ISO-8601 fragment
  `YYYY-MM-DD[<sep>HH[:MM[:SS]]][+HH:MM|-HH:MM]` (no fractional seconds),
  with CPython's field-range validation.
* The `America/New_York` zone is modelled by the post-2007 tz rules (DST from
  the second Sunday of March 02:00 local to the first Sunday of November
  02:00 local, EDT = UTC-4, otherwise EST = UTC-5), with `fold = 0`
  disambiguation, matching `zoneinfo` for the modern dates the API serves.
-/

namespace Bonfire

abbrev Str := List Char

/-- Python exception classes that the embedded code can raise. -/
inductive PyErr
  | keyError
  | attrError
  | valueError
  | typeError
deriving DecidableEq, Repr

deriving instance DecidableEq for Except

/-! ## Character / digit helpers -/

def isDigitCh (c : Char) : Bool := '0' ≤ c && c ≤ '9'

def dval (c : Char) : Nat := c.toNat - 48

/-- Parse exactly two decimal digits. -/
def parse2 : Str → Option (Nat × Str)
  | a :: b :: rest =>
      if isDigitCh a && isDigitCh b then some (10 * dval a + dval b, rest) else none
  | _ => none

/-- Parse exactly four decimal digits. -/
def parse4 : Str → Option (Nat × Str)
  | a :: b :: c :: d :: rest =>
      if isDigitCh a && isDigitCh b && isDigitCh c && isDigitCh d then
        some (1000 * dval a + 100 * dval b + 10 * dval c + dval d, rest)
      else none
  | _ => none

/-- Require the next character to be `c`. -/
def expectCh (c : Char) : Str → Option Str
  | x :: rest => if x = c then some rest else none
  | [] => none

/-! ## Proleptic-Gregorian calendar (Howard Hinnant's algorithms, which use
truncating integer division, hence `Int.tdiv`). Day 0 is 1970-01-01. -/

def isLeap (y : Int) : Bool :=
  y % 4 = 0 && (y % 100 ≠ 0 || y % 400 = 0)

def daysInMonth (y m : Int) : Int :=
  if m = 2 then (if isLeap y then 29 else 28)
  else if m = 4 ∨ m = 6 ∨ m = 9 ∨ m = 11 then 30
  else 31

/-- Days since 1970-01-01 of the civil date `y-m-d`. -/
def daysFromCivil (y m d : Int) : Int :=
  let y' := if m ≤ 2 then y - 1 else y
  let era := Int.tdiv (if 0 ≤ y' then y' else y' - 399) 400
  let yoe := y' - era * 400
  let mp := if m > 2 then m - 3 else m + 9
  let doy := Int.tdiv (153 * mp + 2) 5 + d - 1
  let doe := yoe * 365 + Int.tdiv yoe 4 - Int.tdiv yoe 100 + doy
  era * 146097 + doe - 719468

/-- Civil date `(y, m, d)` of a count of days since 1970-01-01. -/
def civilFromDays (z : Int) : Int × Int × Int :=
  let z' := z + 719468
  let era := Int.tdiv (if 0 ≤ z' then z' else z' - 146096) 146097
  let doe := z' - era * 146097
  let yoe := Int.tdiv (doe - Int.tdiv doe 1460 + Int.tdiv doe 36524 - Int.tdiv doe 146096) 365
  let y := yoe + era * 400
  let doy := doe - (365 * yoe + Int.tdiv yoe 4 - Int.tdiv yoe 100)
  let mp := Int.tdiv (5 * doy + 2) 153
  let d := doy - Int.tdiv (153 * mp + 2) 5 + 1
  let m := if mp < 10 then mp + 3 else mp - 9
  (if m ≤ 2 then y + 1 else y, m, d)

/-- Weekday of a day count, `0` = Sunday (1970-01-01 was a Thursday). -/
def weekday (z : Int) : Int := (z + 4) % 7

/-- The first Sunday on or after day `z`. -/
def firstSundayOnOrAfter (z : Int) : Int := z + (7 - weekday z) % 7

/-- Day count of the second Sunday of March of year `y`. -/
def secondSundayMarch (y : Int) : Int :=
  firstSundayOnOrAfter (daysFromCivil y 3 1) + 7

/-- Day count of the first Sunday of November of year `y`. -/
def firstSundayNovember (y : Int) : Int :=
  firstSundayOnOrAfter (daysFromCivil y 11 1)

/-! ## America/New_York offsets (post-2007 rules, as served by `zoneinfo`) -/

/-- UTC offset (seconds) of America/New_York at the UTC instant `u`
(seconds since the epoch).  DST runs from 07:00 UTC of the second Sunday of
March to 06:00 UTC of the first Sunday of November. -/
def easternOffsetFromUtc (u : Int) : Int :=
  let y := (civilFromDays (u / 86400)).1
  let spring := secondSundayMarch y * 86400 + 7 * 3600
  let fall := firstSundayNovember y * 86400 + 6 * 3600
  if spring ≤ u ∧ u < fall then -14400 else -18000

/-- UTC offset (seconds) that `zoneinfo` assigns to the naive Eastern
wall-clock time `w` (seconds since the epoch) with `fold = 0`: during the
nonexistent spring hour the pre-gap offset (EST) applies, and during the
ambiguous fall hour the first occurrence (EDT) applies. -/
def easternOffsetFromWall (w : Int) : Int :=
  let y := (civilFromDays (w / 86400)).1
  let spring := secondSundayMarch y * 86400 + 3 * 3600
  let fall := firstSundayNovember y * 86400 + 2 * 3600
  if spring ≤ w ∧ w < fall then -14400 else -18000

/-! ## The `datetime` model -/

/-- A Python `datetime`: wall-clock seconds since the epoch plus an optional
fixed UTC offset in seconds (`none` = naive). -/
structure DT where
  wall : Int
  offset : Option Int
deriving DecidableEq, Repr

/-- The UTC instant of an aware `DT` (only meaningful when `offset` is set;
the code below only uses it on aware values). -/
def awareInstant (d : DT) : Int := d.wall - d.offset.getD 0

/-- Model of `dt.astimezone(EASTERN)`: same instant, Eastern wall clock and offset. -/
def astimezoneEastern (d : DT) : DT :=
  let u := awareInstant d
  ⟨u + easternOffsetFromUtc u, some (easternOffsetFromUtc u)⟩

/-- Python `>` on datetimes: aware values compare by instant, naive by wall
clock, and mixing naive with aware raises `TypeError`. -/
def pyGT (a b : DT) : Except PyErr Bool :=
  match a.offset, b.offset with
  | some _, some _ => .ok (decide (awareInstant a > awareInstant b))
  | none, none => .ok (decide (a.wall > b.wall))
  | _, _ => .error .typeError

/-- Model of `datetime.now(EASTERN) + timedelta(days = d)` for a true current UTC
instant `nowUtc` (seconds): timedelta addition shifts the wall clock and the
`ZoneInfo` offset is recomputed from the new wall time. -/
def nowPlusDaysEastern (nowUtc d : Int) : DT :=
  let nowWall := nowUtc + easternOffsetFromUtc nowUtc
  let cutWall := nowWall + d * 86400
  ⟨cutWall, some (easternOffsetFromWall cutWall)⟩

/-! ## `datetime.fromisoformat` (fragment) -/

/-- Parse `HH[:MM[:SS]]` and return `(hour, minute, second, rest)`. -/
def parseTime (s : Str) : Option (Nat × Nat × Nat × Str) := do
  let (h, r1) ← parse2 s
  match r1 with
  | ':' :: r2 => do
      let (m, r3) ← parse2 r2
      match r3 with
      | ':' :: r4 => do
          let (sec, r5) ← parse2 r4
          pure (h, m, sec, r5)
      | _ => pure (h, m, 0, r3)
  | _ => pure (h, 0, 0, r1)

/-- Parse an optional trailing `±HH:MM` UTC offset (seconds, signed). -/
def parseOffset (s : Str) : Option (Option Int) :=
  match s with
  | [] => some none
  | sign :: r =>
      if sign = '+' ∨ sign = '-' then do
        let (oh, r1) ← parse2 r
        let r2 ← expectCh ':' r1
        let (om, r3) ← parse2 r2
        if r3 = [] ∧ oh ≤ 23 ∧ om ≤ 59 then
          some (some ((if sign = '+' then 1 else -1) * (Int.ofNat oh * 3600 + Int.ofNat om * 60)))
        else none
      else none

/-- Model of `datetime.fromisoformat` over the fragment
`YYYY-MM-DD[<sep>HH[:MM[:SS]]][±HH:MM]` (any single separator character, as
in CPython), with CPython's range validation; `none` models `ValueError`. -/
def fromisoformat (s : Str) : Option DT := do
  let (y, r1) ← parse4 s
  let r2 ← expectCh '-' r1
  let (mo, r3) ← parse2 r2
  let r4 ← expectCh '-' r3
  let (d, r5) ← parse2 r4
  if 1 ≤ y ∧ 1 ≤ mo ∧ mo ≤ 12 ∧ 1 ≤ d ∧ Int.ofNat d ≤ daysInMonth (Int.ofNat y) (Int.ofNat mo) then
    match r5 with
    | [] => some ⟨daysFromCivil (Int.ofNat y) (Int.ofNat mo) (Int.ofNat d) * 86400, none⟩
    | _sep :: r6 => do
        let (hh, mm, ss, r7) ← parseTime r6
        if hh ≤ 23 ∧ mm ≤ 59 ∧ ss ≤ 59 then
          let off ← parseOffset r7
          some ⟨daysFromCivil (Int.ofNat y) (Int.ofNat mo) (Int.ofNat d) * 86400
                  + Int.ofNat (hh * 3600 + mm * 60 + ss), off⟩
        else none
  else none

/-! ## `strftime` for the format `%b %d, %Y %I:%M %p %Z` -/

def monthAbbrev (m : Int) : Str :=
  if m = 1 then "Jan".data else if m = 2 then "Feb".data
  else if m = 3 then "Mar".data else if m = 4 then "Apr".data
  else if m = 5 then "May".data else if m = 6 then "Jun".data
  else if m = 7 then "Jul".data else if m = 8 then "Aug".data
  else if m = 9 then "Sep".data else if m = 10 then "Oct".data
  else if m = 11 then "Nov".data else "Dec".data

def natDigits (n : Nat) : Str := Nat.toDigits 10 n

/-- Zero-pad a (nonnegative) value to two digits. -/
def pad2 (n : Int) : Str :=
  if n < 10 then '0' :: natDigits n.toNat else natDigits n.toNat

/-- Model of `dt.strftime("%b %d, %Y %I:%M %p %Z")` for an Eastern-zone `DT`; `%Z` is
`EDT` when the offset is UTC-4 and `EST` otherwise. -/
def fmtEastern (d : DT) : Str :=
  let days := d.wall / 86400
  let secs := d.wall % 86400
  let c := civilFromDays days
  let hh := secs / 3600
  let mi := (secs % 3600) / 60
  let h12 := if hh % 12 = 0 then 12 else hh % 12
  let ampm := if hh < 12 then "AM".data else "PM".data
  let tz := if d.offset = some (-14400) then "EDT".data else "EST".data
  monthAbbrev c.2.1 ++ " ".data ++ pad2 c.2.2 ++ ", ".data ++ natDigits c.1.toNat
    ++ " ".data ++ pad2 h12 ++ ":".data ++ pad2 mi ++ " ".data ++ ampm
    ++ " ".data ++ tz

/-! ## `parse_api_datetime` (source lines 45-71) -/

/-- The `Z`-suffix rewrite both `parse_api_datetime` and `get_open_projects`
apply before parsing:
`if s.endswith("Z"): s = s[:-1] + "+00:00"`. -/
def zNorm (s : Str) : Str :=
  if s.getLast? = some 'Z' then s.dropLast ++ "+00:00".data else s

/-- Model of `parse_api_datetime(date_string)`: `None`/empty input gives `None`; a
trailing `Z` is rewritten to `+00:00`; a string the ISO parser rejects is
returned as-is (note: the rewritten string, since the rewrite happens inside
the `try` block before the parse); otherwise the value is converted to
Eastern time (a naive parse is assumed UTC) and formatted. -/
def parse_api_datetime (raw : Option Str) : Option Str :=
  match raw with
  | none => none
  | some s =>
    if s = [] then none
    else
      let s2 := zNorm s
      match fromisoformat s2 with
      | none => some s2
      | some dt =>
          let dtE := if dt.offset.isSome then astimezoneEastern dt
                     else astimezoneEastern ⟨dt.wall, some 0⟩
          some (fmtEastern dtE)

/-! ## Data model -/

/-- A JSON field that should hold a string: the key may be absent, the value
may be `null`, or it is a string.  Subscript access `record["k"]` raises
`KeyError` on `absent`; calling `.lower()` on `null` raises
`AttributeError`. -/
inductive Field
  | absent
  | null
  | str (s : Str)
deriving DecidableEq, Repr

/-- Model of `record.get("k")`: absent and `null` both collapse to `None`. -/
def Field.get : Field → Option Str
  | .absent => none
  | .null => none
  | .str s => some s

/-- A nested sub-object carrying an `id` (`organization`, `department`). -/
structure SubObj where
  id : Str
deriving DecidableEq, Repr

/-- A nested `owner`/`contact` sub-object. -/
structure Person where
  name : Str
  email : Str
  phone : Str
deriving DecidableEq, Repr

/-- One entry of `customFieldValues`:
`{ customField: { name: ... }, value: ... }`. -/
structure CustomField where
  name : Str
  value : Str
deriving DecidableEq, Repr

/-- A raw project record from the API. -/
structure Project where
  id : Option Str
  organization : Option SubObj
  department : Option SubObj
  name : Option Str
  referenceNumber : Option Str
  description : Option Str
  type : Option Str
  dateOpen : Option Str
  dateClosed : Option Str
  dateEvaluated : Option Str
  dateModified : Option Str
  visibility : Field
  status : Field
  owner : Option Person
  contact : Option Person
  customFieldValues : List CustomField
deriving DecidableEq, Repr

/-! ## Pagination (source lines 85-104 and 140-161: both functions contain
this identical fetch loop with `limit = 100`) -/

def pageLimit : Nat := 100

/-- The fetch loop over a sequence of API pages (page `n` of the API is the
`n`-th list; pages past the end are empty).  Returns the aggregated records
and the number of page requests issued: each loop iteration is one request;
an empty page stops the loop contributing nothing; a short page stops the
loop after being kept; a full page continues to the next page. -/
def paginate {α : Type} : List (List α) → List α × Nat
  | [] => ([], 1)
  | p :: rest =>
    if p.isEmpty then ([], 1)
    else if p.length < pageLimit then (p, 1)
    else
      let r := paginate rest
      (p ++ r.1, r.2 + 1)

/-- Model of `get_all_projects`: the pager's aggregated record list. -/
def get_all_projects {α : Type} (pages : List (List α)) : List α :=
  (paginate pages).1

/-! ## The window filter of `get_open_projects` (source lines 106-127) -/

/-- Model of `record["k"].lower()` for a string-typed field. -/
def pyLower : Field → Except PyErr Str
  | .absent => .error .keyError
  | .null => .error .attrError
  | .str s => .ok (s.map Char.toLower)

/-- The per-record body of the filtering loop: check `status`, then
`visibility`, then the close date.  A truthy close-date string gets its
trailing `Z` rewritten, is parsed by `fromisoformat` (failure raises
`ValueError` — there is no `try` here), converted to Eastern when aware, and
compared against the cutoff (a naive value raises `TypeError` in the
comparison).  `ok true` means the record is appended. -/
def passesFilter (cutoff : DT) (p : Project) : Except PyErr Bool :=
  match pyLower p.status with
  | .error e => .error e
  | .ok st =>
    if st ≠ "open".data then .ok false
    else
      match pyLower p.visibility with
      | .error e => .error e
      | .ok vi =>
        if vi ≠ "public".data then .ok false
        else
          match p.dateClosed with
          | none => .ok false
          | some dc =>
            if dc = [] then .ok false
            else
              match fromisoformat (zNorm dc) with
              | none => .error .valueError
              | some d =>
                  let d2 := if d.offset.isSome then astimezoneEastern d else d
                  pyGT d2 cutoff

/-- The filtering loop: first raised error aborts the call; kept records
stay in order. -/
def filterProjects (cutoff : DT) : List Project → Except PyErr (List Project)
  | [] => .ok []
  | p :: rest =>
    match passesFilter cutoff p with
    | .error e => .error e
    | .ok keep =>
      match filterProjects cutoff rest with
      | .error e => .error e
      | .ok r => .ok (if keep then p :: r else r)

def time_delta_days_default : Int := 2

/-- Model of `get_open_projects`: fetch all pages, compute the cutoff
`datetime.now(EASTERN) + timedelta(days = time_delta_days)`, and filter.
`nowUtc` is the current UTC instant in seconds. -/
def get_open_projects (nowUtc : Int) (time_delta_days : Int)
    (pages : List (List Project)) : Except PyErr (List Project) :=
  let allProjects := (paginate pages).1
  let cutoff := nowPlusDaysEastern nowUtc time_delta_days
  filterProjects cutoff allProjects

/-- Model of `get_open_projects` with the default `time_delta_days=2`. -/
def get_open_projects_default (nowUtc : Int) (pages : List (List Project)) :
    Except PyErr (List Project) :=
  get_open_projects nowUtc time_delta_days_default pages

/-! ## Flattening and `convert_to_df` (source lines 164-218) -/

/-- A Python `dict` with string keys: insertion order preserved, updating an
existing key keeps its position. -/
abbrev Row := List (Str × Option Str)

/-- Assignment `d[k] = v` on a Python dict. -/
def dictInsert (k : Str) (v : Option Str) : Row → Row
  | [] => [(k, v)]
  | (k', v') :: rest => if k' = k then (k', v) :: rest else (k', v') :: dictInsert k v rest

/-- Dict lookup: value of the first (hence, in a dict, the only) binding. -/
def dlookup (k : Str) : Row → Option (Option Str)
  | [] => none
  | (k', v) :: rest => if k' = k then some v else dlookup k rest

/-- Fold a pair list into a dict by repeated insertion. -/
def foldIns (r : Row) (l : List (Str × Option Str)) : Row :=
  l.foldl (fun acc kv => dictInsert kv.1 kv.2 acc) r

/-- The dict comprehension
`{cf["customField"]["name"]: cf["value"] for cf in project.get("customFieldValues", [])}`. -/
def cfDict (p : Project) : Row :=
  foldIns [] (p.customFieldValues.map (fun cf => (cf.name, some cf.value)))

/-- The fixed 18 keys of the row literal, in source order, given the two
unconditionally extracted ids. -/
def fixedRow (p : Project) (orgId deptId : Str) : Row :=
  [("bonfire_id".data, p.id),
   ("organization_id".data, some orgId),
   ("department_id".data, some deptId),
   ("project_name".data, p.name),
   ("reference_number".data, p.referenceNumber),
   ("project_description".data, p.description),
   ("type".data, p.type),
   ("open_date".data, parse_api_datetime p.dateOpen),
   ("date_closed".data, parse_api_datetime p.dateClosed),
   ("date_evaluated".data, parse_api_datetime p.dateEvaluated),
   ("visibility".data, p.visibility.get),
   ("owner_name".data, p.owner.map Person.name),
   ("owner_email".data, p.owner.map Person.email),
   ("status".data, p.status.get),
   ("contact_name".data, p.contact.map Person.name),
   ("contact_email".data, p.contact.map Person.email),
   ("contact_phone".data, p.contact.map Person.phone),
   ("date_modified".data, parse_api_datetime p.dateModified)]

/-- Build one flattened row (the `item` dict literal, lines 181-211).
`project.get("organization")["id"]` subscripts `None` when the sub-object is
absent, raising `TypeError`; likewise for `department`.  `owner`/`contact`
accesses are guarded (`... if project.get("owner") else None`).  The final
`**custom_fields` merges the custom-field dict after the fixed keys. -/
def flatten (p : Project) : Except PyErr Row :=
  match p.organization with
  | none => .error .typeError
  | some org =>
    match p.department with
    | none => .error .typeError
    | some dept => .ok (foldIns (fixedRow p org.id dept.id) (cfDict p))

/-- Flatten every record, first error aborting (the `for` loop builds
`df_list` and any raised exception propagates). -/
def flattenAll : List Project → Except PyErr (List Row)
  | [] => .ok []
  | p :: rest =>
    match flatten p with
    | .error e => .error e
    | .ok row =>
      match flattenAll rest with
      | .error e => .error e
      | .ok rows => .ok (row :: rows)

/-- The assembled table: column names plus the rows (a row's cell for a
column it lacks is `NaN`, i.e. `dlookup` yields `none`). -/
structure DataFrame where
  cols : List Str
  rows : List Row
deriving DecidableEq, Repr

/-- Model of `pd.DataFrame(df_list)`: the columns are the union of the rows' keys in
order of first appearance. -/
def mkDF (rows : List Row) : DataFrame :=
  ⟨rows.foldl (fun acc r => acc ++ ((r.map Prod.fst).filter (fun k => ¬ acc.contains k))) [],
   rows⟩

/-- Model of `df[columns]`: select/reorder to exactly `cs`; any requested column
missing from the frame raises `KeyError`. -/
def dfSelect (df : DataFrame) (cs : List Str) : Except PyErr DataFrame :=
  if cs.all (fun c => df.cols.contains c) then .ok ⟨cs, df.rows⟩
  else .error .keyError

/-- Model of `convert_to_df(projects, columns)`: flatten every record, assemble the
frame, and project to `columns` only when that argument is truthy (`None`
and the empty list both skip the projection). -/
def convert_to_df (projects : List Project) (columns : Option (List Str)) :
    Except PyErr DataFrame :=
  match flattenAll projects with
  | .error e => .error e
  | .ok rows =>
    let df := mkDF rows
    match columns with
    | none => .ok df
    | some cs => if cs = [] then .ok df else dfSelect df cs

/-! ## Dictionary lemmas -/

/-- First-hit choice on options (`orO a b` is `a` unless `a` is `none`). -/
def orO {α : Type} (a b : Option α) : Option α :=
  match a with
  | some v => some v
  | none => b

theorem orO_none_left {α : Type} (b : Option α) : orO none b = b := rfl

theorem orO_some {α : Type} (v : α) (b : Option α) : orO (some v) b = some v := rfl

theorem orO_none_right {α : Type} (a : Option α) : orO a none = a := by
  cases a <;> rfl

def keysOf (d : Row) : List Str := d.map Prod.fst

theorem dlookup_append (k : Str) (a b : Row) :
    dlookup k (a ++ b) = orO (dlookup k a) (dlookup k b) := by
  induction a with
  | nil => simp [dlookup, orO_none_left]
  | cons kv t ih =>
      obtain ⟨k', v⟩ := kv
      by_cases h : k' = k <;> simp [dlookup, h, ih, orO_some]

theorem dictInsert_dlookup (k k' : Str) (v : Option Str) (d : Row) :
    dlookup k (dictInsert k' v d) = if k' = k then some v else dlookup k d := by
  induction d with
  | nil => simp [dictInsert, dlookup]
  | cons kv t ih =>
      obtain ⟨k₀, v₀⟩ := kv
      by_cases h1 : k₀ = k'
      · subst h1
        by_cases h2 : k₀ = k <;> simp [dictInsert, dlookup, h2]
      · by_cases h2 : k₀ = k
        · subst h2
          have : ¬ k' = k₀ := fun h => h1 h.symm
          simp [dictInsert, dlookup, h1, this]
        · simp [dictInsert, dlookup, h1, h2, ih]

theorem mem_keysOf_dictInsert {a k : Str} {v : Option Str} {d : Row} :
    a ∈ keysOf (dictInsert k v d) → a = k ∨ a ∈ keysOf d := by
  induction d with
  | nil => simp [dictInsert, keysOf]
  | cons kv t ih =>
      obtain ⟨k₀, v₀⟩ := kv
      by_cases h : k₀ = k
      · simp [dictInsert, keysOf, h]
      · simp only [dictInsert, if_neg h, keysOf, List.map_cons, List.mem_cons]
        intro hmem
        rcases hmem with h0 | hmem
        · exact Or.inr (by simp [keysOf, h0])
        · rcases ih hmem with h1 | h1
          · exact Or.inl h1
          · exact Or.inr (by simp [keysOf] at h1 ⊢; tauto)

theorem nodup_keysOf_dictInsert {k : Str} {v : Option Str} {d : Row}
    (h : (keysOf d).Nodup) : (keysOf (dictInsert k v d)).Nodup := by
  induction d with
  | nil => simp [dictInsert, keysOf]
  | cons kv t ih =>
      obtain ⟨k₀, v₀⟩ := kv
      simp only [keysOf, List.map_cons, List.nodup_cons] at h
      by_cases h0 : k₀ = k
      · simp only [dictInsert, if_pos h0, keysOf, List.map_cons, List.nodup_cons]
        exact ⟨by simpa [keysOf] using h.1, h.2⟩
      · simp only [dictInsert, if_neg h0, keysOf, List.map_cons, List.nodup_cons]
        constructor
        · intro hmem
          rcases mem_keysOf_dictInsert hmem with h1 | h1
          · exact h0 h1
          · exact h.1 (by simpa [keysOf] using h1)
        · exact ih h.2

theorem dlookup_eq_none {k : Str} {d : Row} (h : k ∉ keysOf d) :
    dlookup k d = none := by
  induction d with
  | nil => simp [dlookup]
  | cons kv t ih =>
      obtain ⟨k₀, v₀⟩ := kv
      simp only [keysOf, List.map_cons, List.mem_cons] at h
      push_neg at h
      have : ¬ k₀ = k := fun hh => h.1 hh.symm
      simp [dlookup, this]
      exact ih h.2

theorem dlookup_reverse_of_nodup {k : Str} {d : Row}
    (h : (keysOf d).Nodup) : dlookup k d.reverse = dlookup k d := by
  induction d with
  | nil => simp
  | cons kv t ih =>
      obtain ⟨k₀, v₀⟩ := kv
      simp only [keysOf, List.map_cons, List.nodup_cons] at h
      rw [List.reverse_cons, dlookup_append]
      by_cases h0 : k₀ = k
      · subst h0
        have ht : dlookup k₀ t = none := dlookup_eq_none (by simpa [keysOf] using h.1)
        have htr : dlookup k₀ t.reverse = none := by
          rw [ih h.2]; exact ht
        simp [dlookup, htr, orO_none_left]
      · simp [dlookup, h0, ih h.2, orO_none_right]

theorem foldIns_dlookup (l : List (Str × Option Str)) (r : Row) (k : Str) :
    dlookup k (foldIns r l) = orO (dlookup k l.reverse) (dlookup k r) := by
  induction l generalizing r with
  | nil => simp [foldIns, dlookup, orO_none_left]
  | cons kv t ih =>
      obtain ⟨k₀, v₀⟩ := kv
      have hstep : foldIns r ((k₀, v₀) :: t) = foldIns (dictInsert k₀ v₀ r) t := rfl
      rw [hstep, ih, List.reverse_cons, dlookup_append, dictInsert_dlookup]
      by_cases h0 : k₀ = k
      · cases hlt : dlookup k t.reverse <;> simp [dlookup, h0, orO, hlt]
      · cases hlt : dlookup k t.reverse <;> simp [dlookup, h0, orO, hlt]

theorem nodup_keysOf_foldIns (l : List (Str × Option Str)) (r : Row)
    (h : (keysOf r).Nodup) : (keysOf (foldIns r l)).Nodup := by
  induction l generalizing r with
  | nil => exact h
  | cons kv t ih => exact ih _ (nodup_keysOf_dictInsert h)

/-- The value the last custom-field entry named `k` assigns (the first hit in
the reversed entry list), wrapped as a present dict value. -/
def lastCustomValue (p : Project) (k : Str) : Option (Option Str) :=
  dlookup k ((p.customFieldValues.map (fun cf => (cf.name, some cf.value))).reverse)

theorem cfDict_dlookup (p : Project) (k : Str) :
    dlookup k (cfDict p) = lastCustomValue p k := by
  rw [cfDict, foldIns_dlookup, lastCustomValue]
  simp [dlookup, orO_none_right]

theorem cfDict_nodup (p : Project) : (keysOf (cfDict p)).Nodup := by
  exact nodup_keysOf_foldIns _ _ (by simp [keysOf])

theorem dlookup_isSome_of_mem {k : Str} {d : Row} (h : k ∈ keysOf d) :
    ∃ v, dlookup k d = some v := by
  induction d with
  | nil => simp [keysOf] at h
  | cons kv t ih =>
      obtain ⟨k₀, v₀⟩ := kv
      by_cases h0 : k₀ = k
      · exact ⟨v₀, by simp [dlookup, h0]⟩
      · simp only [keysOf, List.map_cons, List.mem_cons] at h
        rcases h with h | h
        · exact absurd h.symm h0
        · simpa [dlookup, h0] using ih (by simpa [keysOf] using h)

theorem flatten_ok (p : Project) (org dept : SubObj)
    (h1 : p.organization = some org) (h2 : p.department = some dept) :
    flatten p = .ok (foldIns (fixedRow p org.id dept.id) (cfDict p)) := by
  simp [flatten, h1, h2]

/-- C4: in `convert_to_df`, each custom-field entry writes the row key named
by the entry, and when several entries share a name the last one in source
list order wins: for a record whose `organization`/`department` are present
(so flattening succeeds) and whose custom-field list contains at least one
entry named `k`, the flattened row's value at `k` is exactly the last such
entry's value (`lastCustomValue`). -/
theorem C4_last_write_wins (p : Project) (org dept : SubObj) (k : Str)
    (h1 : p.organization = some org) (h2 : p.department = some dept)
    (hk : ∃ cf ∈ p.customFieldValues, cf.name = k) :
    flatten p = .ok (foldIns (fixedRow p org.id dept.id) (cfDict p)) ∧
    dlookup k (foldIns (fixedRow p org.id dept.id) (cfDict p)) = lastCustomValue p k := by
  refine ⟨flatten_ok p org dept h1 h2, ?_⟩
  have hkp : k ∈ keysOf (p.customFieldValues.map (fun cf => (cf.name, some cf.value))) := by
    obtain ⟨cf, hcf, hname⟩ := hk
    simp only [keysOf, List.map_map]
    exact List.mem_map.mpr ⟨cf, hcf, hname⟩
  have hkr : k ∈ keysOf ((p.customFieldValues.map (fun cf => (cf.name, some cf.value))).reverse) := by
    simpa [keysOf, List.map_reverse, List.mem_reverse] using hkp
  obtain ⟨v, hv⟩ := dlookup_isSome_of_mem hkr
  have hv' : lastCustomValue p k = some v := hv
  rw [foldIns_dlookup, dlookup_reverse_of_nodup (cfDict_nodup p), cfDict_dlookup, hv', orO_some]

/-- C4 witness: custom fields `Region=East` then `Region=West` give row value
`West` at key `Region`. -/
def pRegion : Project :=
  { id := none, organization := some ⟨"o1".data⟩, department := some ⟨"d1".data⟩,
    name := none, referenceNumber := none, description := none, type := none,
    dateOpen := none, dateClosed := none, dateEvaluated := none, dateModified := none,
    visibility := .str "Public".data, status := .str "Open".data,
    owner := none, contact := none,
    customFieldValues := [⟨"Region".data, "East".data⟩, ⟨"Region".data, "West".data⟩] }

theorem C4_witness :
    (flatten pRegion = .ok (foldIns (fixedRow pRegion "o1".data "d1".data) (cfDict pRegion)) ∧
      dlookup ("Region".data) (foldIns (fixedRow pRegion "o1".data "d1".data) (cfDict pRegion))
        = lastCustomValue pRegion ("Region".data)) ∧
    lastCustomValue pRegion ("Region".data) = some (some ("West".data)) := by
  refine ⟨C4_last_write_wins pRegion ⟨"o1".data⟩ ⟨"d1".data⟩ ("Region".data) rfl rfl ?_, by decide⟩
  exact ⟨⟨"Region".data, "East".data⟩, by decide, rfl⟩

/-- C8: the `**custom_fields` merge happens after the fixed keys of the row
literal, so any key present in the custom-field dict — including one that
collides with a fixed output key such as `status` or `visibility` — ends up
holding the custom field's value, silently replacing the fixed field's
extracted value. -/
theorem C8_custom_overrides (p : Project) (org dept : SubObj) (k : Str) (v : Option Str)
    (h1 : p.organization = some org) (h2 : p.department = some dept)
    (hv : dlookup k (cfDict p) = some v) :
    flatten p = .ok (foldIns (fixedRow p org.id dept.id) (cfDict p)) ∧
    dlookup k (foldIns (fixedRow p org.id dept.id) (cfDict p)) = some v := by
  refine ⟨flatten_ok p org dept h1 h2, ?_⟩
  rw [foldIns_dlookup, dlookup_reverse_of_nodup (cfDict_nodup p), hv, orO_some]

/-- C8 witness: a custom field literally named `status` overrides the fixed
`status` key extracted from the record. -/
def pStatusClash : Project :=
  { pRegion with customFieldValues := [⟨"status".data, "CUSTOM".data⟩] }

theorem C8_witness :
    (flatten pStatusClash
        = .ok (foldIns (fixedRow pStatusClash "o1".data "d1".data) (cfDict pStatusClash)) ∧
      dlookup ("status".data) (foldIns (fixedRow pStatusClash "o1".data "d1".data) (cfDict pStatusClash))
        = some (some ("CUSTOM".data))) ∧
    pStatusClash.status = .str ("Open".data) := by
  refine ⟨C8_custom_overrides pStatusClash ⟨"o1".data⟩ ⟨"d1".data⟩ ("status".data)
    (some ("CUSTOM".data)) rfl rfl (by decide), rfl⟩

/-! ## Window-filter lemmas -/

theorem awareInstant_astimezoneEastern (d : DT) :
    awareInstant (astimezoneEastern d) = awareInstant d := by
  simp [astimezoneEastern, awareInstant]

/-- The keep-condition of the specification's Window Filter, as a Boolean
predicate: `status` lowercases to `open`, `visibility` lowercases to
`public`, and the `Z`-normalized close-date string parses to an aware
instant strictly greater than the cutoff instant. -/
def keepSpec (cutoff : DT) (p : Project) : Bool :=
  match p.status, p.visibility, p.dateClosed with
  | .str st, .str vi, some dc =>
      decide (st.map Char.toLower = "open".data) &&
      decide (vi.map Char.toLower = "public".data) &&
      (match fromisoformat (zNorm dc) with
       | some d => d.offset.isSome && decide (awareInstant d > awareInstant cutoff)
       | none => false)
  | _, _, _ => false

theorem passesFilter_spec (cutoff : DT) (p : Project) (b : Bool)
    (hc : cutoff.offset.isSome) (h : passesFilter cutoff p = .ok b) :
    b = keepSpec cutoff p := by
  obtain ⟨co, hco⟩ := Option.isSome_iff_exists.mp hc
  cases hs : p.status with
  | absent => simp [passesFilter, hs, pyLower] at h
  | null => simp [passesFilter, hs, pyLower] at h
  | str st =>
    by_cases hst : st.map Char.toLower = "open".data
    · cases hv : p.visibility with
      | absent => simp [passesFilter, hs, hv, pyLower, hst] at h
      | null => simp [passesFilter, hs, hv, pyLower, hst] at h
      | str vi =>
        by_cases hvi : vi.map Char.toLower = "public".data
        · cases hd : p.dateClosed with
          | none =>
              simp [passesFilter, hs, hv, hd, pyLower, hst, hvi] at h
              simp [keepSpec, hs, hv, hd, h]
          | some dc =>
            by_cases hdc : dc = []
            · subst hdc
              simp [passesFilter, hs, hv, hd, pyLower, hst, hvi] at h
              simp [keepSpec, hs, hv, hd, zNorm, fromisoformat, parse4, h]
            · cases hfi : fromisoformat (zNorm dc) with
              | none => simp [passesFilter, hs, hv, hd, pyLower, hst, hvi, hdc, hfi] at h
              | some d =>
                cases hdo : d.offset with
                | none =>
                    simp [passesFilter, hs, hv, hd, pyLower, hst, hvi, hdc, hfi, hdo,
                      pyGT, hco] at h
                | some o =>
                    have hred : passesFilter cutoff p = pyGT (astimezoneEastern d) cutoff := by
                      simp [passesFilter, hs, hv, hd, pyLower, hst, hvi, hdc, hfi, hdo]
                    rw [hred] at h
                    simp only [pyGT, astimezoneEastern, awareInstant, hco] at h
                    simp only [keepSpec, hs, hv, hd, hfi, hdo, Option.isSome_some,
                      Bool.true_and, hst, hvi, decide_True]
                    rw [← awareInstant_astimezoneEastern d]
                    simp only [astimezoneEastern, awareInstant, hco]
                    exact (Except.ok.inj h).symm
        · cases hd : p.dateClosed <;>
            · simp [passesFilter, hs, hv, hd, pyLower, hst, hvi] at h
              simp [keepSpec, hs, hv, hd, hvi, h]
    · cases hv : p.visibility <;> cases hd : p.dateClosed <;>
        · simp [passesFilter, hs, hv, hd, pyLower, hst] at h
          simp [keepSpec, hs, hv, hd, hst, h]

theorem filterProjects_spec (cutoff : DT) (l : List Project) (res : List Project)
    (hc : cutoff.offset.isSome) (h : filterProjects cutoff l = .ok res) :
    res = l.filter (keepSpec cutoff) := by
  induction l generalizing res with
  | nil => simpa [filterProjects] using h.symm
  | cons p t ih =>
    cases hp : passesFilter cutoff p with
    | error e => simp [filterProjects, hp] at h
    | ok keep =>
      cases ht : filterProjects cutoff t with
      | error e => simp [filterProjects, hp, ht] at h
      | ok r =>
        simp only [filterProjects, hp, ht] at h
        have hr := ih r ht
        have hk := passesFilter_spec cutoff p keep hc hp
        rw [List.filter_cons, ← hk, ← hr]
        cases keep <;> simpa using h.symm

/-- C2: for every record the filter keeps it exactly when its `status`
lowercases to `"open"`, its `visibility` lowercases to `"public"`, and its
`Z`-normalized close date parses to an aware instant strictly greater than
`datetime.now(EASTERN) + timedelta(days = time_delta_days)` (`keepSpec`);
the result is the fetched records filtered by that predicate in order, and
`time_delta_days` defaults to `2` while remaining caller-overridable. -/
theorem C2_keep_iff (nowUtc delta : Int) (pages : List (List Project)) (res : List Project)
    (h : get_open_projects nowUtc delta pages = .ok res) :
    res = (get_all_projects pages).filter (keepSpec (nowPlusDaysEastern nowUtc delta)) ∧
    get_open_projects_default nowUtc pages = get_open_projects nowUtc time_delta_days_default pages ∧
    time_delta_days_default = 2 := by
  refine ⟨?_, rfl, rfl⟩
  exact filterProjects_spec (nowPlusDaysEastern nowUtc delta) ((paginate pages).1) res rfl h

/-- A fixed "current" UTC instant for concrete witnesses:
2025-02-15 00:00:00 UTC. -/
def now0 : Int := 1739577600

/-- The cutoff `datetime.now(EASTERN) + timedelta(days=2)` at `now0`. -/
def cut0 : DT := nowPlusDaysEastern now0 2

/-- Open public project closing ten days after `now0`. -/
def pIncl : Project :=
  { pRegion with
      customFieldValues := []
      dateClosed := some ("2025-02-25T00:00:00Z".data) }

/-- Open public project closing one day after `now0`. -/
def pExcl : Project :=
  { pRegion with
      customFieldValues := []
      dateClosed := some ("2025-02-16T00:00:00Z".data) }

theorem C2_witness :
    [pIncl] = (get_all_projects [[pIncl, pExcl]]).filter (keepSpec (nowPlusDaysEastern now0 2)) ∧
    get_open_projects_default now0 [[pIncl, pExcl]]
      = get_open_projects now0 time_delta_days_default [[pIncl, pExcl]] ∧
    time_delta_days_default = 2 :=
  C2_keep_iff now0 2 [[pIncl, pExcl]] [pIncl] (by decide)

/-- Open public project whose close-date string is unparseable. -/
def pBadDate : Project :=
  { pRegion with
      customFieldValues := []
      dateClosed := some ("soon".data) }

/-- Open public project with no close date at all. -/
def pNoDate : Project :=
  { pRegion with
      customFieldValues := []
      dateClosed := none }

/-- C1 counterexample: the claim says a record whose close-date fails to
normalize is silently excluded and the call does not raise; but on a record
with the unparseable close date `"soon"` the call raises `ValueError`
(`datetime.fromisoformat` is not wrapped in a `try` inside
`get_open_projects`). -/
theorem C1_counterexample :
    get_open_projects now0 2 [[pBadDate]] = .error .valueError ∧
    pBadDate.dateClosed = some ("soon".data) := by
  exact ⟨by decide, rfl⟩

/-- C1 amended: a record whose close date is absent or empty is excluded
without error, but a record whose truthy close-date string fails to parse
makes the call raise `ValueError` (and is not merely excluded). -/
theorem C1_amended (cutoff : DT) (p : Project) (st vi dc : Str)
    (hs : p.status = .str st) (hv : p.visibility = .str vi) :
    ((p.dateClosed = none ∨ p.dateClosed = some []) → passesFilter cutoff p = .ok false) ∧
    (p.dateClosed = some dc → dc ≠ [] →
      st.map Char.toLower = "open".data → vi.map Char.toLower = "public".data →
      fromisoformat (zNorm dc) = none → passesFilter cutoff p = .error .valueError) := by
  constructor
  · intro hd
    by_cases hst : st.map Char.toLower = "open".data
    · by_cases hvi : vi.map Char.toLower = "public".data
      · rcases hd with hd | hd <;> simp [passesFilter, hs, hv, hd, pyLower, hst, hvi]
      · simp [passesFilter, hs, hv, pyLower, hst, hvi]
    · simp [passesFilter, hs, pyLower, hst]
  · intro hd hdc hst hvi hfi
    simp [passesFilter, hs, hv, hd, pyLower, hst, hvi, hdc, hfi]

theorem C1_witness :
    passesFilter cut0 pNoDate = .ok false ∧
    passesFilter cut0 pBadDate = .error .valueError :=
  ⟨(C1_amended cut0 pNoDate ("Open".data) ("Public".data) ("x".data) rfl rfl).1 (Or.inl rfl),
   (C1_amended cut0 pBadDate ("Open".data) ("Public".data) ("soon".data) rfl rfl).2
     rfl (by decide) (by decide) (by decide) (by decide)⟩

/-! ## C9: status/visibility key requirements -/

theorem passesFilter_status_err (cutoff : DT) (p : Project)
    (h : p.status = .absent ∨ p.status = .null) :
    ∃ e, passesFilter cutoff p = .error e := by
  rcases h with h | h
  · exact ⟨.keyError, by simp [passesFilter, h, pyLower]⟩
  · exact ⟨.attrError, by simp [passesFilter, h, pyLower]⟩

theorem filterProjects_err_of_bad_status (cutoff : DT) (l : List Project)
    (h : ∃ q ∈ l, q.status = .absent ∨ q.status = .null) :
    ∃ e, filterProjects cutoff l = .error e := by
  induction l with
  | nil => simp at h
  | cons p t ih =>
    obtain ⟨q, hq, hqs⟩ := h
    cases hp : passesFilter cutoff p with
    | error e => exact ⟨e, by simp [filterProjects, hp]⟩
    | ok keep =>
      rcases List.mem_cons.mp hq with rfl | hqt
      · obtain ⟨e, he⟩ := passesFilter_status_err cutoff q hqs
        rw [hp] at he
        exact absurd he (by simp)
      · obtain ⟨e, he⟩ := ih ⟨q, hqt, hqs⟩
        exact ⟨e, by simp [filterProjects, hp, he]⟩

/-- Record with status `"closed"` and no `visibility` key at all. -/
def pClosedNoVis : Project :=
  { pRegion with
      customFieldValues := []
      status := .str ("closed".data)
      visibility := .absent }

/-- C9 counterexample: the claim says a fetched record missing the
`visibility` key makes the whole call fail; but a record with status
`"closed"` and no `visibility` key is simply skipped (`continue` fires on
the status check before `visibility` is ever subscripted) and the call
returns successfully. -/
theorem C9_counterexample :
    get_open_projects now0 2 [[pClosedNoVis]] = .ok [] ∧
    pClosedNoVis.visibility = Field.absent := by
  exact ⟨by decide, rfl⟩

/-- Record with no `status` key at all. -/
def pAbsStatus : Project :=
  { pRegion with
      customFieldValues := []
      status := .absent }

/-- Record with status `"Open"` and no `visibility` key. -/
def pOpenNoVis : Project :=
  { pRegion with
      customFieldValues := []
      visibility := .absent }

/-- C9 amended: `status` is unconditionally required — a record whose
`status` key is missing raises `KeyError` and a `null` status raises
`AttributeError`, and any such record anywhere in the fetched collection
makes the whole call fail; but `visibility` is only accessed when the
lowered status equals `"open"` — a record whose status is any other string
is skipped without its `visibility` ever being required. -/
theorem C9_amended (cutoff : DT) (p : Project) :
    (p.status = .absent → passesFilter cutoff p = .error .keyError) ∧
    (p.status = .null → passesFilter cutoff p = .error .attrError) ∧
    (∀ st, p.status = .str st → st.map Char.toLower ≠ "open".data →
      passesFilter cutoff p = .ok false) ∧
    (∀ st, p.status = .str st → st.map Char.toLower = "open".data →
      p.visibility = .absent → passesFilter cutoff p = .error .keyError) ∧
    (∀ st, p.status = .str st → st.map Char.toLower = "open".data →
      p.visibility = .null → passesFilter cutoff p = .error .attrError) ∧
    (∀ l : List Project, (∃ q ∈ l, q.status = .absent ∨ q.status = .null) →
      ∃ e, filterProjects cutoff l = .error e) := by
  refine ⟨?_, ?_, ?_, ?_, ?_, filterProjects_err_of_bad_status cutoff⟩
  · intro h; simp [passesFilter, h, pyLower]
  · intro h; simp [passesFilter, h, pyLower]
  · intro st hs hst; simp [passesFilter, hs, pyLower, hst]
  · intro st hs hst hv; simp [passesFilter, hs, hv, pyLower, hst]
  · intro st hs hst hv; simp [passesFilter, hs, hv, pyLower, hst]

theorem C9_witness :
    passesFilter cut0 pAbsStatus = .error .keyError ∧
    passesFilter cut0 pOpenNoVis = .error .keyError ∧
    (∃ e, filterProjects cut0 [pAbsStatus] = .error e) :=
  ⟨(C9_amended cut0 pAbsStatus).1 rfl,
   (C9_amended cut0 pOpenNoVis).2.2.2.1 ("Open".data) rfl (by decide) rfl,
   (C9_amended cut0 pAbsStatus).2.2.2.2.2 [pAbsStatus] ⟨pAbsStatus, by simp, Or.inl rfl⟩⟩

/-! ## C3: pagination -/

/-- The 1-based index of the first page at which the fetch loop stops: the
first page that is empty or returns fewer than `pageLimit` records (pages
past the end of the list are empty, so this index always exists). -/
def firstTerminalPage {α : Type} : List (List α) → Nat
  | [] => 1
  | p :: rest => if p.length < pageLimit then 1 else 1 + firstTerminalPage rest

/-- C3: over any page sequence in which only the last page may be short
(the uniformity the API termination optimization assumes), the pager
returns exactly the concatenation of the pages in page order, and the
number of requests issued is exactly the index of the first page with zero
or fewer than `pageLimit = 100` records.  The same loop is inlined in both
`get_all_projects` and `get_open_projects`. -/
theorem C3_pagination {α : Type} (pages : List (List α))
    (h : ∀ p ∈ pages.dropLast, p.length = pageLimit) :
    get_all_projects pages = pages.flatten ∧
    (paginate pages).2 = firstTerminalPage pages := by
  induction pages with
  | nil => exact ⟨rfl, rfl⟩
  | cons p rest ih =>
    by_cases hrest : rest = []
    · subst hrest
      by_cases hp : p.isEmpty
      · have hnil : p = [] := by simpa using hp
        subst hnil
        constructor <;> simp [get_all_projects, paginate, firstTerminalPage, pageLimit]
      · by_cases hlen : p.length < pageLimit
        · constructor <;>
            simp [get_all_projects, paginate, firstTerminalPage, hp, hlen]
        · constructor <;>
            simp [get_all_projects, paginate, firstTerminalPage, hp, hlen]
    · have hp100 : p.length = pageLimit := by
        apply h
        rw [List.dropLast_cons_of_ne_nil hrest]
        simp
      have hpne : ¬ p.isEmpty = true := by
        intro hemp
        have : p = [] := by simpa using hemp
        rw [this] at hp100
        simp [pageLimit] at hp100
      have hnotlt : ¬ p.length < pageLimit := by omega
      have ihh := ih (fun q hq => h q (by
        rw [List.dropLast_cons_of_ne_nil hrest]
        exact List.mem_cons_of_mem _ hq))
      constructor
      · show (paginate (p :: rest)).1 = (p :: rest).flatten
        simp only [paginate, if_neg hpne, if_neg hnotlt, List.flatten_cons]
        exact congrArg (p ++ ·) ihh.1
      · show (paginate (p :: rest)).2 = firstTerminalPage (p :: rest)
        simp only [paginate, if_neg hpne, if_neg hnotlt, firstTerminalPage]
        rw [ihh.2]
        omega

theorem C3_witness :
    get_all_projects [List.range 100, List.range 50]
      = ([List.range 100, List.range 50] : List (List Nat)).flatten ∧
    (paginate [List.range 100, List.range 50]).2 = 2 ∧
    (List.range 100 ++ List.range 50).length = 150 := by
  have hcp := C3_pagination ([List.range 100, List.range 50]) (by decide)
  exact ⟨hcp.1, hcp.2.trans (by decide), by decide⟩

/-! ## C5: the `Z` suffix is equivalent to an explicit `+00:00` offset -/

/-- C5: for any datetime string ending in a literal `Z`,
`parse_api_datetime` yields exactly the same output as on the equivalent
string with the `Z` replaced by an explicit `+00:00` offset: the rewrite is
performed before parsing, and the rewritten string never itself ends in
`Z`, so both calls proceed identically (same instant, hence identical
formatted Eastern-time string — or the identical fallback string). -/
theorem C5_z_suffix (s : Str) (hz : s.getLast? = some 'Z') :
    parse_api_datetime (some s)
      = parse_api_datetime (some (s.dropLast ++ "+00:00".data)) := by
  have hne : s ≠ [] := by
    intro hnil
    rw [hnil] at hz
    simp at hz
  have htne : s.dropLast ++ "+00:00".data ≠ [] := by simp
  have hlast : (s.dropLast ++ "+00:00".data).getLast? = some '0' := by
    rw [List.getLast?_append_of_ne_nil s.dropLast (by simp : ("+00:00".data : Str) ≠ [])]
    rfl
  have h1 : zNorm s = s.dropLast ++ "+00:00".data := by simp [zNorm, hz]
  have h2 : zNorm (s.dropLast ++ "+00:00".data) = s.dropLast ++ "+00:00".data := by
    simp [zNorm, hlast]
  simp only [parse_api_datetime, if_neg hne, if_neg htne, h1, h2]

theorem C5_witness :
    parse_api_datetime (some ("2025-02-15T22:00:00Z".data))
      = parse_api_datetime (some (("2025-02-15T22:00:00Z".data).dropLast ++ "+00:00".data)) :=
  C5_z_suffix ("2025-02-15T22:00:00Z".data) (by decide)

/-! ## C6: unguarded `organization`/`department` vs guarded `owner`/`contact` -/

/-- C6: flattening subscripts `project.get("organization")["id"]` and
`project.get("department")["id"]` unconditionally, so a record whose
`organization` or `department` sub-object is absent (or null) makes
`convert_to_df` raise `TypeError` rather than produce a row with a null id;
whereas when both are present flattening always succeeds — in particular
absence of `owner`/`contact` never errors (those accesses are guarded and
their fields become null). -/
theorem C6_nested_access (p : Project) :
    (p.organization = none ∨ p.department = none → flatten p = .error .typeError) ∧
    (p.organization.isSome → p.department.isSome → ∃ row, flatten p = .ok row) := by
  constructor
  · intro hmiss
    rcases hmiss with hmiss | hmiss
    · simp [flatten, hmiss]
    · cases ho : p.organization with
      | none => simp [flatten, ho]
      | some org => simp [flatten, ho, hmiss]
  · intro ho hd
    obtain ⟨org, horg⟩ := Option.isSome_iff_exists.mp ho
    obtain ⟨dept, hdept⟩ := Option.isSome_iff_exists.mp hd
    exact ⟨_, flatten_ok p org dept horg hdept⟩

/-- Record with no `organization` sub-object (but owner/contact data). -/
def pNoOrg : Project :=
  { pRegion with
      customFieldValues := []
      organization := none
      owner := some ⟨"A".data, "a@x".data, "1".data⟩
      contact := some ⟨"B".data, "b@x".data, "2".data⟩ }

theorem C6_witness :
    flatten pNoOrg = .error .typeError ∧ ∃ row, flatten pRegion = .ok row :=
  ⟨(C6_nested_access pNoOrg).1 (Or.inl rfl), (C6_nested_access pRegion).2 rfl rfl⟩

/-! ## C7: column projection -/

/-- C7: with a non-empty `columns` list, `convert_to_df` returns a table
whose columns are exactly the requested list in the requested order when
every requested name occurs in the union of row keys, and raises `KeyError`
when any requested name is absent from that union — it never invents
columns. -/
theorem C7_projection (ps : List Project) (cs : List Str) (rows : List Row)
    (hne : cs ≠ []) (hf : flattenAll ps = .ok rows) :
    ((∀ c ∈ cs, (mkDF rows).cols.contains c) →
      convert_to_df ps (some cs) = .ok ⟨cs, rows⟩) ∧
    ((∃ c ∈ cs, ¬ (mkDF rows).cols.contains c) →
      convert_to_df ps (some cs) = .error .keyError) := by
  constructor
  · intro hall
    simp only [convert_to_df, hf, if_neg hne, dfSelect]
    rw [if_pos (List.all_eq_true.mpr (fun c hc => hall c hc))]
    rfl
  · rintro ⟨c, hc, hnc⟩
    simp only [convert_to_df, hf, if_neg hne, dfSelect]
    rw [if_neg]
    intro hall
    exact hnc (List.all_eq_true.mp hall c hc)

/-- The single flattened row of `pRegion`, as produced by `flatten`. -/
def rowsR : List Row :=
  [foldIns (fixedRow pRegion ("o1".data) ("d1".data)) (cfDict pRegion)]

theorem C7_witness :
    convert_to_df [pRegion] (some [("project_name".data)])
      = .ok ⟨[("project_name".data)], rowsR⟩ ∧
    convert_to_df [pRegion] (some [("absent_col".data)]) = .error .keyError := by
  have hf : flattenAll [pRegion] = .ok rowsR := by decide
  exact ⟨(C7_projection [pRegion] [("project_name".data)] rowsR (by decide) hf).1 (by decide),
    (C7_projection [pRegion] [("absent_col".data)] rowsR (by decide) hf).2
      ⟨("absent_col".data), by decide, by decide⟩⟩

/-! ## C10: an empty column list means no projection -/

/-- C10: `if columns:` treats the empty list like an absent argument, so
`convert_to_df` with `columns = []` performs no projection at all and
returns the full union-of-keys table, identical to passing no columns. -/
theorem C10_empty_columns (ps : List Project) :
    convert_to_df ps (some []) = convert_to_df ps none := by
  cases h : flattenAll ps <;> simp [convert_to_df, h]

end Bonfire
